import Mathlib

/-!
Verification of the inversion engine in `pycurious/optimise.py`
(class `CurieOptimise`).

Shallow embedding conventions:
* IEEE-754 doubles are modelled by real numbers (`ℝ`).  A non-finite
  double (NaN / ±Inf) coming out of the external forward model
  `bouligand2009` is modelled by `none : Option ℝ`; a whole synthetic
  spectrum is a `List (Option ℝ)` and the weighted misfit over it is
  non-finite (`none`) exactly when some entry is non-finite, which is
  how NaN/Inf propagate through `np.linalg.norm`.
* External collaborators (the forward model, the composite
  subgrid/process_subgrid/radial_spectrum pipeline, the bounded scipy
  minimiser, and the random draws of `np.random.normal`,
  `np.random.rand` and `rv_frozen.rvs`) are passed in as explicit
  function arguments; random draws become input streams.
* Python exceptions are modelled with `Except String`; the mutable
  `self.prior` / `self.prior_pdf` dictionaries become an explicit
  `CState` value threaded through the operations that mutate it.
-/

namespace PyCurious

/-- The four estimated parameters; the keys of the `self.prior` and
`self.prior_pdf` dictionaries created by `reset_priors`. -/
inductive Param
  | beta
  | zt
  | dz
  | C
deriving DecidableEq

/-- A total map keyed by `Param`: models one of the two four-entry
dictionaries (iteration order of the Python dict is beta, zt, dz, C). -/
structure PMap (α : Type) where
  beta : α
  zt : α
  dz : α
  C : α

def PMap.get {α : Type} (m : PMap α) : Param → α
  | .beta => m.beta
  | .zt   => m.zt
  | .dz   => m.dz
  | .C    => m.C

def PMap.set {α : Type} (m : PMap α) : Param → α → PMap α
  | .beta, v => { m with beta := v }
  | .zt,   v => { m with zt := v }
  | .dz,   v => { m with dz := v }
  | .C,    v => { m with C := v }

/-- A ParameterVector: the ordered 4-tuple `[beta, zt, dz, C]`. -/
structure Vec4 where
  beta : ℝ
  zt : ℝ
  dz : ℝ
  C : ℝ

/-- `x0 + noise * x_scale` componentwise: the random-walk proposal
`x1 = x0 + np.random.normal(size=4)*x_scale`. -/
def Vec4.perturb (x0 noise scale : Vec4) : Vec4 :=
  ⟨x0.beta + noise.beta * scale.beta,
   x0.zt + noise.zt * scale.zt,
   x0.dz + noise.dz * scale.dz,
   x0.C + noise.C * scale.C⟩

/-- The prior state of a `CurieOptimise` instance: `prior` holds the
snapshotted argument lists (`list(pdf.args)`), `prior_pdf` the frozen
distributions, which we identify by their defining argument lists
(their `rvs` randomness is supplied externally where needed). -/
structure CState where
  prior : PMap (Option (List ℝ))
  prior_pdf : PMap (Option (List ℝ))

/-- `reset_priors`: clears all four slots in both dictionaries. -/
def reset_priors : CState :=
  ⟨⟨none, none, none, none⟩, ⟨none, none, none, none⟩⟩

/-- The value supplied for one keyword of `add_prior`: a
`(location, scale)` tuple, a frozen scipy distribution (identified by
its `args`), or anything else (which `add_prior` rejects). -/
inductive PriorSpec
  | tup : ℝ → ℝ → PriorSpec
  | frozen : List ℝ → PriorSpec
  | other : PriorSpec

/-- Membership test `key in self.prior` for the four recognised keys. -/
def toParam : String → Option Param
  | "beta" => some .beta
  | "zt"   => some .zt
  | "dz"   => some .dz
  | "C"    => some .C
  | _      => none

def paramName : Param → String
  | .beta => "beta"
  | .zt   => "zt"
  | .dz   => "dz"
  | .C    => "C"

/-- One keyword of `add_prior`: validates the key and the value, builds
the pdf (`stats.norm(p, sigma_p)` in the tuple case, whose `args` are
`(p, sigma_p)`), stores it in `prior_pdf` and snapshots `list(pdf.args)`
into `prior`; raises `ValueError` otherwise. -/
def add_prior_one (st : CState) (key : String) (spec : PriorSpec) :
    Except String CState :=
  match toParam key with
  | some p =>
    match spec with
    | .tup loc scale =>
        .ok { prior := st.prior.set p (some [loc, scale]),
              prior_pdf := st.prior_pdf.set p (some [loc, scale]) }
    | .frozen args =>
        .ok { prior := st.prior.set p (some args),
              prior_pdf := st.prior_pdf.set p (some args) }
    | .other => .error "Use a distribution from scipy.stats module"
  | none => .error "prior must be one of beta, zt, dz, C"

/-- `add_prior(**kwargs)`: processes the keywords in order, mutating the
dictionaries as it goes; the first invalid keyword raises, leaving the
mutations made so far in place.  Returns the state reached together
with the raised message, if any. -/
def add_prior (st : CState) : List (String × PriorSpec) → CState × Option String
  | [] => (st, none)
  | (k, v) :: rest =>
    match add_prior_one st k v with
    | .ok st' => add_prior st' rest
    | .error e => (st, some e)

/-- `objective_function(x, x0, sigma_x0, *args)` on scalars:
`0.5*np.linalg.norm((x - x0)/sigma_x0)**2`; for a scalar the norm is the
absolute value and `|d|^2 = d^2`. -/
noncomputable def objective_function (x x0 sigma_x0 : ℝ) : ℝ :=
  0.5 * ((x - x0) / sigma_x0) ^ 2

/-- `objective_routine(**kwargs)`: sums the prior penalty of each
supplied value whose parameter has stored prior arguments, unpacking
the argument list as `objective_function(val, *prior_args)` (the first
two entries are location and scale, further entries land in the unused
`*args`; a stored list shorter than two entries would raise a
`TypeError` in Python, a situation no registered normal prior and no
verified property reaches). -/
noncomputable def objective_routine (st : CState) (kwargs : List (Param × ℝ)) : ℝ :=
  kwargs.foldl
    (fun c kv =>
      match st.prior.get kv.1 with
      | some (x0 :: sigma :: _) => c + objective_function kv.2 x0 sigma
      | some _ => c
      | none => c)
    0

/-- The external forward model `bouligand2009(kh, beta, zt, dz, C)`:
given the wavenumbers and the four parameters it produces the synthetic
spectrum, entrywise `none` for a non-finite (NaN/Inf) output. -/
def FwdModel : Type :=
  List ℝ → ℝ → ℝ → ℝ → ℝ → List (Option ℝ)

/-- Sum of squared weighted deviations `((syn - Phi)/sigma_Phi)^2`
(non-finite entries are handled one level up). -/
noncomputable def sqdev : List (Option ℝ) → List ℝ → List ℝ → ℝ
  | s :: ss, p :: ps, g :: gs => ((s.getD 0 - p) / g) ^ 2 + sqdev ss ps gs
  | _, _, _ => 0

/-- `objective_function` applied to the synthetic spectrum vector:
`0.5*np.linalg.norm((Phi_syn - Phi)/sigma_Phi)**2`.  The result is
non-finite (`none`) exactly when the forward model produced a
non-finite entry, which propagates through the norm. -/
noncomputable def objective_function_vec (Phi_syn : List (Option ℝ)) (Phi sigma_Phi : List ℝ) :
    Option ℝ :=
  if Phi_syn.any Option.isNone then none
  else some (0.5 * sqdev Phi_syn Phi sigma_Phi)

/-- `min_func(x, kh, Phi, sigma_Phi)`: forward-model misfit (with the
warnings raised by `bouligand2009` suppressed), replaced by the `1e99`
sentinel when non-finite, otherwise augmented with the prior penalties
`objective_routine(beta=beta, zt=zt, dz=dz, C=C)`. -/
noncomputable def min_func (fm : FwdModel) (st : CState) (x : Vec4)
    (kh Phi sigma_Phi : List ℝ) : ℝ :=
  match objective_function_vec (fm kh x.beta x.zt x.dz x.C) Phi sigma_Phi with
  | none => 1e99
  | some m =>
      m + objective_routine st
            [(.beta, x.beta), (.zt, x.zt), (.dz, x.dz), (.C, x.C)]

/-! ### Concrete instances used by witnesses and counterexamples -/

/-- A forward model returning a non-finite synthetic spectrum everywhere. -/
def fmNone : FwdModel := fun _ _ _ _ _ => [none]

/-- A forward model returning an empty (finite) synthetic spectrum. -/
def fmEmpty : FwdModel := fun _ _ _ _ _ => []

/-- The freshly initialised prior state. -/
def st0 : CState := reset_priors

/-- The default starting ParameterVector `(3.0, 1.0, 10.0, 5.0)`. -/
def x0c : Vec4 := ⟨3, 1, 10, 5⟩

/-! ### Claims C1, C9, C10 -/

/-- C1: `min_func` returns exactly `1e99` whenever the forward-model
misfit is non-finite, and in that case the prior configuration is never
consulted (the result is the same for every prior state); when the
misfit is a finite number `m`, the returned value is `m` plus the prior
penalties for beta, zt, dz, C — a plain real number, hence finite. -/
theorem C1_min_func_sentinel (fm : FwdModel) (st : CState) (x : Vec4)
    (kh Phi sigma_Phi : List ℝ) :
    (objective_function_vec (fm kh x.beta x.zt x.dz x.C) Phi sigma_Phi = none →
      ∀ st' : CState, min_func fm st' x kh Phi sigma_Phi = 1e99) ∧
    (∀ m : ℝ,
      objective_function_vec (fm kh x.beta x.zt x.dz x.C) Phi sigma_Phi = some m →
      min_func fm st x kh Phi sigma_Phi =
        m + objective_routine st
              [(.beta, x.beta), (.zt, x.zt), (.dz, x.dz), (.C, x.C)]) := by
  constructor
  · intro h st'
    unfold min_func
    rw [h]
  · intro m h
    unfold min_func
    rw [h]

/-- Witness for C1 at concrete inputs: a forward model producing a
non-finite spectrum yields the sentinel, a finite one yields misfit
plus penalties. -/
theorem C1_min_func_sentinel_witness :
    min_func fmNone st0 x0c [] [] [] = 1e99 ∧
    min_func fmEmpty st0 x0c [] [] [] =
      0.5 * sqdev [] [] [] + objective_routine st0
        [(.beta, x0c.beta), (.zt, x0c.zt), (.dz, x0c.dz), (.C, x0c.C)] :=
  ⟨(C1_min_func_sentinel fmNone st0 x0c [] [] []).1 rfl st0,
   (C1_min_func_sentinel fmEmpty st0 x0c [] [] []).2 (0.5 * sqdev [] [] []) rfl⟩

theorem PMap.get_set_self {α : Type} (m : PMap α) (p : Param) (v : α) :
    (m.set p v).get p = v := by
  cases p <;> rfl

/-- C9: registering a normal prior `(loc, scale)` for any parameter `p`
makes `objective_routine` charge exactly `0.5*((x - loc)/scale)^2` for a
candidate value `x` of `p`; in particular after `add_prior(beta=(3.0, 0.1))`
the penalty at `beta = 3.0` is `0.0` and at `beta = 3.2` it is `2.0`. -/
theorem C9_penalty_normal_prior :
    (∀ (st st' : CState) (p : Param) (loc scale x : ℝ),
      add_prior st [(paramName p, .tup loc scale)] = (st', none) →
      objective_routine st' [(p, x)] = 0.5 * ((x - loc) / scale) ^ 2) ∧
    objective_routine
      (add_prior reset_priors [("beta", .tup 3 0.1)]).1 [(.beta, 3)] = 0 ∧
    objective_routine
      (add_prior reset_priors [("beta", .tup 3 0.1)]).1 [(.beta, 3.2)] = 2 := by
  refine ⟨?_, ?_, ?_⟩
  · intro st st' p loc scale x h
    have hname : toParam (paramName p) = some p := by cases p <;> rfl
    unfold add_prior add_prior_one at h
    rw [hname] at h
    simp only [add_prior] at h
    have hst : st' =
        { prior := st.prior.set p (some [loc, scale]),
          prior_pdf := st.prior_pdf.set p (some [loc, scale]) } := by
      cases h
      rfl
    subst hst
    simp only [objective_routine, List.foldl, PMap.get_set_self]
    rw [objective_function]
    ring
  · simp only [add_prior, add_prior_one, toParam, objective_routine,
      List.foldl, reset_priors, PMap.set, PMap.get]
    rw [objective_function]
    norm_num
  · simp only [add_prior, add_prior_one, toParam, objective_routine,
      List.foldl, reset_priors, PMap.set, PMap.get]
    rw [objective_function]
    norm_num

/-- Witness for C9 at a concrete input: the general statement applied to
the beta prior `(3.0, 0.1)` and candidate `3.2`. -/
theorem C9_penalty_normal_prior_witness :
    objective_routine
      (add_prior reset_priors [("beta", PriorSpec.tup 3 0.1)]).1 [(.beta, 3.2)] =
      0.5 * ((3.2 - 3) / 0.1) ^ 2 :=
  (C9_penalty_normal_prior).1 reset_priors _ .beta 3 0.1 3.2 rfl

theorem add_prior_append (pre l : List (String × PriorSpec)) :
    ∀ (st st1 : CState), add_prior st pre = (st1, none) →
      add_prior st (pre ++ l) = add_prior st1 l := by
  induction pre with
  | nil =>
      intro st st1 h
      simp only [add_prior] at h
      cases h
      simp
  | cons kv rest ih =>
      intro st st1 h
      obtain ⟨k, v⟩ := kv
      rw [List.cons_append]
      simp only [add_prior] at h ⊢
      cases hone : add_prior_one st k v with
      | ok st2 =>
          rw [hone] at h
          exact ih st2 st1 h
      | error e =>
          rw [hone] at h
          have h' : (st, some e) = (st1, (none : Option String)) := h
          simp at h'

/-- C10: `add_prior` is not atomic: when a batch of keyword priors hits
an invalid entry (unrecognised name, or a value that is neither a tuple
nor a frozen distribution), the error is raised with every keyword
processed before it still registered — the store is exactly the state
reached after the valid prefix. -/
theorem C10_add_prior_partial_update (st st1 : CState)
    (pre : List (String × PriorSpec)) (k : String) (v : PriorSpec)
    (rest : List (String × PriorSpec))
    (hpre : add_prior st pre = (st1, none))
    (hbad : toParam k = none ∨ v = PriorSpec.other) :
    ∃ e, add_prior st (pre ++ (k, v) :: rest) = (st1, some e) := by
  rw [add_prior_append pre ((k, v) :: rest) st st1 hpre]
  rcases hbad with hk | hv
  · refine ⟨"prior must be one of beta, zt, dz, C", ?_⟩
    simp only [add_prior, add_prior_one, hk]
  · subst hv
    cases hk : toParam k with
    | none =>
        refine ⟨"prior must be one of beta, zt, dz, C", ?_⟩
        simp only [add_prior, add_prior_one, hk]
    | some p =>
        refine ⟨"Use a distribution from scipy.stats module", ?_⟩
        simp only [add_prior, add_prior_one, hk]

/-- Witness for C10: `add_prior(beta=(3.0, 0.1), gamma=(0.0, 1.0))`
raises on the unrecognised key `gamma`, yet leaves the beta prior
registered (its stored arguments are `[3.0, 0.1]`). -/
theorem C10_add_prior_partial_update_witness :
    (∃ e, add_prior reset_priors
        ([("beta", PriorSpec.tup 3 0.1)] ++ ("gamma", PriorSpec.tup 0 1) :: []) =
      ((add_prior reset_priors [("beta", PriorSpec.tup 3 0.1)]).1, some e)) ∧
    (add_prior reset_priors [("beta", PriorSpec.tup 3 0.1)]).1.prior.beta =
      some [3, 0.1] :=
  ⟨C10_add_prior_partial_update reset_priors _ [("beta", PriorSpec.tup 3 0.1)]
      "gamma" (PriorSpec.tup 0 1) [] rfl (Or.inl rfl),
   rfl⟩

/-! ### The Metropolis-Hastings sampler -/

/-- The composite external pipeline `subgrid` → `process_subgrid` →
`radial_spectrum`: for `(window, xc, yc)` it yields
`(k, Phi, sigma_Phi)`. -/
def SpectrumFn : Type := ℝ → ℝ → ℝ → List ℝ × List ℝ × List ℝ

/-- `np.exp` on IEEE doubles, modelled over the reals with the
underflow of the double format made explicit: for arguments at or
below `-746` the double result is exactly `+0.0` (`np.exp(-746)`
evaluates to `0.0`).  The arguments fed to it here are
`-min_func(..)/T ≤ 0`, so overflow cannot occur.  The proved
properties depend only on `np_exp` being nonnegative and zero at
`-1e99` and `-1e99/1000`, not on the exact cutoff. -/
noncomputable def np_exp (x : ℝ) : ℝ :=
  if x ≤ -746 then 0 else Real.exp x

theorem np_exp_nonneg (x : ℝ) : 0 ≤ np_exp x := by
  unfold np_exp
  split
  · exact le_refl 0
  · exact (Real.exp_pos x).le

/-- One burn-in iteration: propose `x1 = x0 + noise*x_scale`, compute
the tempered pseudo-likelihoods with `T = 1000`, and adopt `x1` only
if `P1 > P0`. -/
noncomputable def burninStep (fm : FwdModel) (st : CState)
    (kh Phi sigma_Phi : List ℝ) (x_scale x0 noise : Vec4) : Vec4 :=
  let x1 := x0.perturb noise x_scale
  let P0 := np_exp (-(min_func fm st x0 kh Phi sigma_Phi) / 1000)
  let P1 := np_exp (-(min_func fm st x1 kh Phi sigma_Phi) / 1000)
  if P0 < P1 then x1 else x0

/-- The burn-in loop: `burnin` iterations of `burninStep`, recording
nothing, returning only the final state. -/
noncomputable def burninPhase (fm : FwdModel) (st : CState)
    (kh Phi sigma_Phi : List ℝ) (x_scale : Vec4) (x0 : Vec4)
    (noise : ℕ → Vec4) (burnin : ℕ) : Vec4 :=
  (List.range burnin).foldl
    (fun x i => burninStep fm st kh Phi sigma_Phi x_scale x (noise i)) x0

/-- One sampling iteration: propose `x1 = x0 + noise*x_scale`, compute
the untempered pseudo-likelihoods, floor `P0` at `1e-99`, accept with
probability `P = min(P1/P0, 1)` against the uniform draw `u`
(`np.random.rand() <= P`). -/
noncomputable def sampleStep (fm : FwdModel) (st : CState)
    (kh Phi sigma_Phi : List ℝ) (x_scale x0 noise : Vec4) (u : ℝ) : Vec4 :=
  let x1 := x0.perturb noise x_scale
  let P0 := np_exp (-(min_func fm st x0 kh Phi sigma_Phi))
  let P1 := np_exp (-(min_func fm st x1 kh Phi sigma_Phi))
  let P0f := max P0 1e-99
  let P := min (P1 / P0f) 1
  if u ≤ P then x1 else x0

/-- The sampling loop from iteration `i` with `n` iterations left:
every iteration appends the (possibly just updated) current state to
the samples. -/
noncomputable def samplingRun (fm : FwdModel) (st : CState)
    (kh Phi sigma_Phi : List ℝ) (x_scale : Vec4) (snoise : ℕ → Vec4)
    (u : ℕ → ℝ) : Vec4 → ℕ → ℕ → List Vec4
  | _, 0, _ => []
  | x0, n + 1, i =>
    let x := sampleStep fm st kh Phi sigma_Phi x_scale x0 (snoise i) (u i)
    x :: samplingRun fm st kh Phi sigma_Phi x_scale snoise u x n (i + 1)

/-- `metropolis_hastings`, as the list of recorded states: obtain the
spectrum once, default `x_scale` to ones, run `burnin` burn-in
iterations and then `nsim` recorded sampling iterations.  The random
draws `np.random.normal(size=4)` of both phases and `np.random.rand()`
are supplied as the streams `bnoise`, `snoise`, `u`. -/
noncomputable def mh_samples (fm : FwdModel) (st : CState)
    (spectrumAt : SpectrumFn) (window xc yc : ℝ) (nsim burnin : ℕ)
    (x_scale : Option Vec4) (x0 : Vec4) (bnoise snoise : ℕ → Vec4)
    (u : ℕ → ℝ) : List Vec4 :=
  let xs := x_scale.getD ⟨1, 1, 1, 1⟩
  let s := spectrumAt window xc yc
  let xb := burninPhase fm st s.1 s.2.1 s.2.2 xs x0 bnoise burnin
  samplingRun fm st s.1 s.2.1 s.2.2 xs snoise u xb nsim 0

/-- `metropolis_hastings` proper: `list(samples.T)`, the four
per-parameter sequences of the recorded ensemble. -/
noncomputable def metropolis_hastings (fm : FwdModel) (st : CState)
    (spectrumAt : SpectrumFn) (window xc yc : ℝ) (nsim burnin : ℕ)
    (x_scale : Option Vec4) (x0 : Vec4) (bnoise snoise : ℕ → Vec4)
    (u : ℕ → ℝ) : List ℝ × List ℝ × List ℝ × List ℝ :=
  let samples := mh_samples fm st spectrumAt window xc yc nsim burnin
    x_scale x0 bnoise snoise u
  (samples.map Vec4.beta, samples.map Vec4.zt,
   samples.map Vec4.dz, samples.map Vec4.C)

theorem samplingRun_length (fm : FwdModel) (st : CState)
    (kh Phi sigma_Phi : List ℝ) (xs : Vec4) (snoise : ℕ → Vec4)
    (u : ℕ → ℝ) :
    ∀ (n : ℕ) (x0 : Vec4) (i : ℕ),
      (samplingRun fm st kh Phi sigma_Phi xs snoise u x0 n i).length = n := by
  intro n
  induction n with
  | zero => intro x0 i; rfl
  | succ m ih =>
      intro x0 i
      rw [samplingRun]
      simp only [List.length_cons]
      rw [ih]

/-- The default Vec4 used by `List.getD` below. -/
def v0 : Vec4 := ⟨0, 0, 0, 0⟩

theorem samplingRun_chain (fm : FwdModel) (st : CState)
    (kh Phi sigma_Phi : List ℝ) (xs : Vec4) (snoise : ℕ → Vec4)
    (u : ℕ → ℝ) :
    ∀ (n : ℕ) (x0 : Vec4) (i j : ℕ), j < n →
      (samplingRun fm st kh Phi sigma_Phi xs snoise u x0 n i).getD j v0 =
        sampleStep fm st kh Phi sigma_Phi xs
          ((x0 :: samplingRun fm st kh Phi sigma_Phi xs snoise u x0 n i).getD j v0)
          (snoise (i + j)) (u (i + j)) := by
  intro n
  induction n with
  | zero => intro x0 i j hj; exact absurd hj (Nat.not_lt_zero j)
  | succ m ih =>
      intro x0 i j hj
      rw [samplingRun]
      cases j with
      | zero =>
          simp only [List.getD_cons_zero, Nat.add_zero]
      | succ jj =>
          simp only [List.getD_cons_succ]
          have hjm : jj < m := Nat.lt_of_succ_lt_succ hj
          have := ih (sampleStep fm st kh Phi sigma_Phi xs x0 (snoise i) (u i))
            (i + 1) jj hjm
          rw [this]
          have harith : i + 1 + jj = i + (jj + 1) := by omega
          rw [harith]

/-! ### Claims C5, C6, C7 -/

/-- C7: the burn-in phase uses the fixed temperature `T = 1000` in its
tempered pseudo-likelihoods, adopts the proposal `x1` exactly when
`P1 > P0` — a deterministic greedy rule with no random acceptance draw
— and records nothing: the returned ensemble of `metropolis_hastings`
has `nsim` entries whatever the number of burn-in iterations. -/
theorem C7_burnin_phase (fm : FwdModel) (st : CState) :
    (∀ (kh Phi sigma_Phi : List ℝ) (xs x0 noise : Vec4),
      burninStep fm st kh Phi sigma_Phi xs x0 noise =
        if np_exp (-(min_func fm st x0 kh Phi sigma_Phi) / 1000) <
            np_exp (-(min_func fm st (x0.perturb noise xs) kh Phi sigma_Phi) / 1000)
        then x0.perturb noise xs else x0) ∧
    (∀ (spectrumAt : SpectrumFn) (window xc yc : ℝ) (nsim burnin : ℕ)
        (x_scale : Option Vec4) (x0 : Vec4) (bnoise snoise : ℕ → Vec4)
        (u : ℕ → ℝ),
      (metropolis_hastings fm st spectrumAt window xc yc nsim burnin
          x_scale x0 bnoise snoise u).1.length = nsim) := by
  constructor
  · intro kh Phi sigma_Phi xs x0 noise
    rfl
  · intro spectrumAt window xc yc nsim burnin x_scale x0 bnoise snoise u
    unfold metropolis_hastings mh_samples
    simp only [List.length_map]
    rw [samplingRun_length]

/-- C6: in the sampling phase, the recorded ensemble has exactly `nsim`
entries (in each of the four returned sequences); the ensemble is the
sampling loop run from the burn-in result; and the entry recorded at
each iteration is the proposal `x1` when the uniform draw satisfies
`u ≤ min(P1/max(P0, 1e-99), 1)` and otherwise repeats the previous
entry (the chain state is appended every iteration). -/
theorem C6_sampling_phase (fm : FwdModel) (st : CState)
    (kh Phi sigma_Phi : List ℝ) (xs : Vec4) (snoise : ℕ → Vec4)
    (u : ℕ → ℝ) :
    (∀ (spectrumAt : SpectrumFn) (window xc yc : ℝ) (nsim burnin : ℕ)
        (x_scale : Option Vec4) (x0 : Vec4) (bnoise : ℕ → Vec4),
      (metropolis_hastings fm st spectrumAt window xc yc nsim burnin
          x_scale x0 bnoise snoise u).1.length = nsim ∧
      (metropolis_hastings fm st spectrumAt window xc yc nsim burnin
          x_scale x0 bnoise snoise u).2.2.2.length = nsim ∧
      mh_samples fm st spectrumAt window xc yc nsim burnin
          x_scale x0 bnoise snoise u =
        samplingRun fm st (spectrumAt window xc yc).1
          (spectrumAt window xc yc).2.1 (spectrumAt window xc yc).2.2
          (x_scale.getD ⟨1, 1, 1, 1⟩) snoise u
          (burninPhase fm st (spectrumAt window xc yc).1
            (spectrumAt window xc yc).2.1 (spectrumAt window xc yc).2.2
            (x_scale.getD ⟨1, 1, 1, 1⟩) x0 bnoise burnin) nsim 0) ∧
    (∀ (x0 prev x1 : Vec4) (n i j : ℕ), j < n →
      prev = (x0 :: samplingRun fm st kh Phi sigma_Phi xs snoise u x0 n i).getD j v0 →
      x1 = prev.perturb (snoise (i + j)) xs →
      (samplingRun fm st kh Phi sigma_Phi xs snoise u x0 n i).getD j v0 =
        if u (i + j) ≤
            min (np_exp (-(min_func fm st x1 kh Phi sigma_Phi)) /
              max (np_exp (-(min_func fm st prev kh Phi sigma_Phi))) 1e-99) 1
        then x1 else prev) := by
  constructor
  · intro spectrumAt window xc yc nsim burnin x_scale x0 bnoise
    refine ⟨?_, ?_, rfl⟩
    · unfold metropolis_hastings mh_samples
      simp only [List.length_map]
      rw [samplingRun_length]
    · unfold metropolis_hastings mh_samples
      simp only [List.length_map]
      rw [samplingRun_length]
  · intro x0 prev x1 n i j hj hprev hx1
    rw [samplingRun_chain fm st kh Phi sigma_Phi xs snoise u n x0 i j hj, ← hprev]
    rw [sampleStep, ← hx1]

/-- Witness for C6 at a concrete input: one sampling iteration from the
default start with zero noise and draw `u = 1`. -/
theorem C6_sampling_phase_witness :
    (metropolis_hastings fmEmpty st0 (fun _ _ _ => ([], [], [])) 0 0 0 1 0
        none x0c (fun _ => v0) (fun _ => v0) (fun _ => 1)).1.length = 1 ∧
    (samplingRun fmEmpty st0 [] [] [] ⟨1, 1, 1, 1⟩ (fun _ => v0)
        (fun _ => 1) x0c 1 0).getD 0 v0 =
      if (1 : ℝ) ≤
          min (np_exp (-(min_func fmEmpty st0 (x0c.perturb v0 ⟨1, 1, 1, 1⟩) [] [] [])) /
            max (np_exp (-(min_func fmEmpty st0 x0c [] [] []))) 1e-99) 1
      then x0c.perturb v0 ⟨1, 1, 1, 1⟩ else x0c :=
  ⟨((C6_sampling_phase fmEmpty st0 [] [] [] ⟨1, 1, 1, 1⟩ (fun _ => v0)
      (fun _ => 1)).1 (fun _ _ _ => ([], [], [])) 0 0 0 1 0 none x0c
      (fun _ => v0)).1,
   (C6_sampling_phase fmEmpty st0 [] [] [] ⟨1, 1, 1, 1⟩ (fun _ => v0)
      (fun _ => 1)).2 x0c x0c (x0c.perturb v0 ⟨1, 1, 1, 1⟩) 1 0 0
      (Nat.zero_lt_one) rfl rfl⟩

/-- C5 (counterexample): a proposal whose forward-model misfit is
non-finite is not always rejected in the sampling phase: when the
uniform draw is exactly `0.0` (a possible value of `np.random.rand`,
whose range is `[0, 1)`), the test `u <= P` succeeds with `P = 0` and
the invalid proposal is adopted. -/
theorem C5_invalid_proposal_counterexample :
    sampleStep fmNone st0 [] [] [] ⟨1, 1, 1, 1⟩ x0c ⟨1, 0, 0, 0⟩ 0 =
      Vec4.perturb x0c ⟨1, 0, 0, 0⟩ ⟨1, 1, 1, 1⟩ ∧
    Vec4.perturb x0c ⟨1, 0, 0, 0⟩ ⟨1, 1, 1, 1⟩ ≠ x0c := by
  constructor
  · have hmf : ∀ x : Vec4, min_func fmNone st0 x [] [] [] = 1e99 := fun _ => rfl
    rw [sampleStep]
    simp only [hmf]
    have hz : np_exp (-(1e99 : ℝ)) = 0 := by
      unfold np_exp
      rw [if_pos (by norm_num)]
    rw [hz]
    rw [if_pos]
    rw [zero_div]
    norm_num
  · intro h
    have hb := congrArg Vec4.beta h
    simp only [Vec4.perturb, x0c] at hb
    norm_num at hb

/-- C5 (amended): a proposal with non-finite forward-model misfit
always loses the burn-in comparison `P1 > P0`, and in the sampling
phase it is rejected whenever the uniform draw is strictly positive;
only a draw of exactly `0.0` can adopt it. -/
theorem C5_invalid_proposal_amended (fm : FwdModel) (st : CState)
    (kh Phi sigma_Phi : List ℝ) (xs x0 noise : Vec4) (u : ℝ)
    (hnf : objective_function_vec
        (fm kh (x0.perturb noise xs).beta (x0.perturb noise xs).zt
          (x0.perturb noise xs).dz (x0.perturb noise xs).C) Phi sigma_Phi = none)
    (hu : 0 < u) :
    burninStep fm st kh Phi sigma_Phi xs x0 noise = x0 ∧
    sampleStep fm st kh Phi sigma_Phi xs x0 noise u = x0 := by
  have hmf : min_func fm st (x0.perturb noise xs) kh Phi sigma_Phi = 1e99 := by
    unfold min_func
    rw [hnf]
  constructor
  · rw [burninStep]
    simp only [hmf]
    rw [if_neg]
    have hz : np_exp (-(1e99 : ℝ) / 1000) = 0 := by
      unfold np_exp
      rw [if_pos (by norm_num)]
    rw [hz]
    exact not_lt_of_le (np_exp_nonneg _)
  · rw [sampleStep]
    simp only [hmf]
    rw [if_neg]
    have hz : np_exp (-(1e99 : ℝ)) = 0 := by
      unfold np_exp
      rw [if_pos (by norm_num)]
    rw [hz, zero_div]
    intro hle
    have : (0 : ℝ) < min 0 1 := lt_of_lt_of_le hu hle
    norm_num at this

/-- Witness for C5 (amended) at a concrete input: the constantly
non-finite forward model, the default start, unit noise on beta, and
draw `u = 1/2`. -/
theorem C5_invalid_proposal_amended_witness :
    burninStep fmNone st0 [] [] [] ⟨1, 1, 1, 1⟩ x0c ⟨1, 0, 0, 0⟩ = x0c ∧
    sampleStep fmNone st0 [] [] [] ⟨1, 1, 1, 1⟩ x0c ⟨1, 0, 0, 0⟩ (1 / 2) = x0c :=
  C5_invalid_proposal_amended fmNone st0 [] [] [] ⟨1, 1, 1, 1⟩ x0c
    ⟨1, 0, 0, 0⟩ (1 / 2) rfl (by norm_num)

/-! ### Point and batch estimation -/

/-- The external bounded minimiser
`scipy.optimize.minimize(fun, x0, args, bounds)`, as the map from the
objective, the start vector and the bounds to the returned `res.x`. -/
def MinimizeFn : Type :=
  (Vec4 → ℝ) → Vec4 → List (Option ℝ × Option ℝ) → Vec4

/-- `self.bounds`: `list(zip([0,0,0,None],[None,None,None,None]))`,
i.e. lower bounds `0` for beta, zt, dz and no bound for C. -/
def bounds : List (Option ℝ × Option ℝ) :=
  [(some 0, none), (some 0, none), (some 0, none), (none, none)]

/-- One `(lower, upper)` bound satisfied by a value. -/
def satisfiesBound (b : Option ℝ × Option ℝ) (v : ℝ) : Prop :=
  (∀ lo, b.1 = some lo → lo ≤ v) ∧ (∀ hi, b.2 = some hi → v ≤ hi)

/-- A bounds list satisfied entrywise by a list of values. -/
def satisfiesBounds : List (Option ℝ × Option ℝ) → List ℝ → Prop
  | b :: bs, v :: vs => satisfiesBound b v ∧ satisfiesBounds bs vs
  | [], [] => True
  | _, _ => False

/-- `optimise(window, xc, yc, beta, zt, dz, C, ...)`: obtain the
spectrum for the centroid and run one bounded minimisation of
`min_func` from the start vector, returning `res.x` as-is. -/
noncomputable def optimise (minimizeFn : MinimizeFn) (spectrumAt : SpectrumFn)
    (fm : FwdModel) (st : CState) (window xc yc : ℝ) (x0 : Vec4) : Vec4 :=
  let s := spectrumAt window xc yc
  minimizeFn (fun x => min_func fm st x s.1 s.2.1 s.2.2) x0 bounds

/-- `optimise_routine(window, xc_list, yc_list, ...)`: fails when the
centroid coordinate lists differ in length, otherwise calls `optimise`
once per centroid in input order and returns `list(xOpt.T)`, the four
per-parameter sequences. -/
noncomputable def optimise_routine (minimizeFn : MinimizeFn)
    (spectrumAt : SpectrumFn) (fm : FwdModel) (st : CState) (window : ℝ)
    (xc_list yc_list : List ℝ) (x0 : Vec4) :
    Except String (List ℝ × List ℝ × List ℝ × List ℝ) :=
  if xc_list.length ≠ yc_list.length then
    .error "xc_list and yc_list must be the same size"
  else
    let xOpt := (xc_list.zip yc_list).map
      fun c => optimise minimizeFn spectrumAt fm st window c.1 c.2 x0
    .ok (xOpt.map Vec4.beta, xOpt.map Vec4.zt,
         xOpt.map Vec4.dz, xOpt.map Vec4.C)

/-! ### Claims C4, C8 -/

/-- C4 (counterexample): the sampler does not respect the bounds: with
burn-in 0 and one sampling iteration, a proposal with beta perturbed by
`-10` is accepted (draw `u = 0`) and recorded, so the returned beta
sequence contains `-7 < 0`. -/
theorem C4_bounds_counterexample :
    (metropolis_hastings fmEmpty st0 (fun _ _ _ => ([], [], [])) 0 0 0 1 0
        none x0c (fun _ => v0) (fun _ => ⟨-10, 0, 0, 0⟩) (fun _ => 0)).1 =
      [(-7 : ℝ)] ∧ ((-7 : ℝ) < 0) := by
  constructor
  · have hstep : sampleStep fmEmpty st0 [] [] [] ⟨1, 1, 1, 1⟩ x0c
        ⟨-10, 0, 0, 0⟩ 0 = Vec4.perturb x0c ⟨-10, 0, 0, 0⟩ ⟨1, 1, 1, 1⟩ := by
      rw [sampleStep]
      rw [if_pos]
      exact le_min
        (div_nonneg (np_exp_nonneg _)
          (le_trans (by norm_num) (le_max_right _ (1e-99 : ℝ))))
        zero_le_one
    have hrun : samplingRun fmEmpty st0 [] [] [] ⟨1, 1, 1, 1⟩
        (fun _ => ⟨-10, 0, 0, 0⟩) (fun _ => 0) x0c 1 0 =
        [sampleStep fmEmpty st0 [] [] [] ⟨1, 1, 1, 1⟩ x0c ⟨-10, 0, 0, 0⟩ 0] := rfl
    show (samplingRun fmEmpty st0 [] [] [] ⟨1, 1, 1, 1⟩
        (fun _ => ⟨-10, 0, 0, 0⟩) (fun _ => 0) x0c 1 0).map Vec4.beta = [(-7 : ℝ)]
    rw [hrun, hstep]
    show [Vec4.beta (Vec4.perturb x0c ⟨-10, 0, 0, 0⟩ ⟨1, 1, 1, 1⟩)] = [(-7 : ℝ)]
    simp only [Vec4.perturb, x0c]
    norm_num
  · norm_num

/-- C4 (amended): the result of `optimise` does satisfy
beta ≥ 0, zt ≥ 0, dz ≥ 0 (C unconstrained), provided the external
bounded minimiser honours the bounds it is given; the sampler, which
enforces no bounds, is exempt (see the counterexample). -/
theorem C4_bounds_amended (minimizeFn : MinimizeFn) (spectrumAt : SpectrumFn)
    (fm : FwdModel) (st : CState) (window xc yc : ℝ) (x0 : Vec4)
    (hmin : ∀ (f : Vec4 → ℝ) (y : Vec4),
      satisfiesBounds bounds
        [(minimizeFn f y bounds).beta, (minimizeFn f y bounds).zt,
         (minimizeFn f y bounds).dz, (minimizeFn f y bounds).C]) :
    0 ≤ (optimise minimizeFn spectrumAt fm st window xc yc x0).beta ∧
    0 ≤ (optimise minimizeFn spectrumAt fm st window xc yc x0).zt ∧
    0 ≤ (optimise minimizeFn spectrumAt fm st window xc yc x0).dz := by
  have h := hmin (fun x => min_func fm st x (spectrumAt window xc yc).1
    (spectrumAt window xc yc).2.1 (spectrumAt window xc yc).2.2) x0
  exact ⟨h.1.1 0 rfl, h.2.1.1 0 rfl, h.2.2.1.1 0 rfl⟩

/-- Witness for C4 (amended): the constant minimiser returning the
origin honours the bounds, and the optimise result is then within
them. -/
theorem C4_bounds_amended_witness :
    0 ≤ (optimise (fun _ _ _ => v0) (fun _ _ _ => ([], [], []))
        fmEmpty st0 0 0 0 x0c).beta ∧
    0 ≤ (optimise (fun _ _ _ => v0) (fun _ _ _ => ([], [], []))
        fmEmpty st0 0 0 0 x0c).zt ∧
    0 ≤ (optimise (fun _ _ _ => v0) (fun _ _ _ => ([], [], []))
        fmEmpty st0 0 0 0 x0c).dz :=
  C4_bounds_amended (fun _ _ _ => v0) (fun _ _ _ => ([], [], []))
    fmEmpty st0 0 0 0 x0c
    (by
      intro f y
      refine ⟨⟨?_, ?_⟩, ⟨?_, ?_⟩, ⟨?_, ?_⟩, ⟨?_, ?_⟩, trivial⟩ <;>
        intro a ha <;> simp_all [v0])

theorem getD_map_beta (f : Vec4 → ℝ) :
    ∀ (l : List Vec4) (j : ℕ), j < l.length →
      (l.map f).getD j 0 = f (l.getD j v0) := by
  intro l
  induction l with
  | nil => intro j hj; exact absurd hj (Nat.not_lt_zero j)
  | cons a as ih =>
      intro j hj
      cases j with
      | zero => rfl
      | succ jj =>
          simp only [List.map_cons, List.getD_cons_succ]
          exact ih jj (Nat.lt_of_succ_lt_succ hj)

theorem getD_zip_map (g : ℝ → ℝ → Vec4) :
    ∀ (xs ys : List ℝ) (j : ℕ), j < xs.length → j < ys.length →
      ((xs.zip ys).map fun c => g c.1 c.2).getD j v0 =
        g (xs.getD j 0) (ys.getD j 0) := by
  intro xs
  induction xs with
  | nil => intro ys j hj _; exact absurd hj (Nat.not_lt_zero j)
  | cons a as ih =>
      intro ys j hj hj'
      cases ys with
      | nil => exact absurd hj' (Nat.not_lt_zero j)
      | cons b bs =>
          cases j with
          | zero => rfl
          | succ jj =>
              simp only [List.zip_cons_cons, List.map_cons, List.getD_cons_succ]
              exact ih bs jj (Nat.lt_of_succ_lt_succ hj) (Nat.lt_of_succ_lt_succ hj')

/-- C8: `optimise_routine` raises `ValueError` exactly when the two
centroid coordinate lists differ in length; for equal-length lists of
length N it returns four per-parameter sequences, each of length N,
whose entry `i` is the `optimise` result for centroid `i` in input
order. -/
theorem C8_optimise_routine_shapes (minimizeFn : MinimizeFn)
    (spectrumAt : SpectrumFn) (fm : FwdModel) (st : CState) (window : ℝ)
    (xc_list yc_list : List ℝ) (x0 : Vec4) :
    (xc_list.length ≠ yc_list.length →
      optimise_routine minimizeFn spectrumAt fm st window xc_list yc_list x0 =
        .error "xc_list and yc_list must be the same size") ∧
    (xc_list.length = yc_list.length →
      ∃ b z d c, optimise_routine minimizeFn spectrumAt fm st window
          xc_list yc_list x0 = .ok (b, z, d, c) ∧
        b.length = xc_list.length ∧ z.length = xc_list.length ∧
        d.length = xc_list.length ∧ c.length = xc_list.length ∧
        ∀ j, j < xc_list.length →
          b.getD j 0 = (optimise minimizeFn spectrumAt fm st window
            (xc_list.getD j 0) (yc_list.getD j 0) x0).beta ∧
          z.getD j 0 = (optimise minimizeFn spectrumAt fm st window
            (xc_list.getD j 0) (yc_list.getD j 0) x0).zt ∧
          d.getD j 0 = (optimise minimizeFn spectrumAt fm st window
            (xc_list.getD j 0) (yc_list.getD j 0) x0).dz ∧
          c.getD j 0 = (optimise minimizeFn spectrumAt fm st window
            (xc_list.getD j 0) (yc_list.getD j 0) x0).C) := by
  constructor
  · intro h
    unfold optimise_routine
    rw [if_pos h]
  · intro h
    have hzlen : (xc_list.zip yc_list).length = xc_list.length := by
      rw [List.length_zip, h, min_self]
    have heq : optimise_routine minimizeFn spectrumAt fm st window
        xc_list yc_list x0 =
        .ok (((xc_list.zip yc_list).map
            fun c => optimise minimizeFn spectrumAt fm st window c.1 c.2 x0).map
              Vec4.beta,
          ((xc_list.zip yc_list).map
            fun c => optimise minimizeFn spectrumAt fm st window c.1 c.2 x0).map
              Vec4.zt,
          ((xc_list.zip yc_list).map
            fun c => optimise minimizeFn spectrumAt fm st window c.1 c.2 x0).map
              Vec4.dz,
          ((xc_list.zip yc_list).map
            fun c => optimise minimizeFn spectrumAt fm st window c.1 c.2 x0).map
              Vec4.C) := by
      unfold optimise_routine
      rw [if_neg (not_not_intro h)]
    refine ⟨_, _, _, _, heq, ?_, ?_, ?_, ?_, ?_⟩
    · simp only [List.length_map, hzlen]
    · simp only [List.length_map, hzlen]
    · simp only [List.length_map, hzlen]
    · simp only [List.length_map, hzlen]
    · intro j hj
      have hjz : j < ((xc_list.zip yc_list).map
          fun c => optimise minimizeFn spectrumAt fm st window c.1 c.2 x0).length := by
        simp only [List.length_map, hzlen]
        exact hj
      have hjz' : j < (xc_list.zip yc_list).length := by
        rw [hzlen]; exact hj
      have hz := getD_zip_map
        (fun a b => optimise minimizeFn spectrumAt fm st window a b x0)
        xc_list yc_list j hj (h ▸ hj)
      refine ⟨?_, ?_, ?_, ?_⟩ <;>
        · rw [getD_map_beta _ _ j (by simpa using hjz)]
          rw [hz]

/-- Witness for C8: singleton centroid lists of equal length, and a
mismatched pair. -/
theorem C8_optimise_routine_shapes_witness :
    (∃ b z d c, optimise_routine (fun _ _ _ => v0) (fun _ _ _ => ([], [], []))
        fmEmpty st0 0 [1] [2] x0c = .ok (b, z, d, c) ∧
      b.length = [(1 : ℝ)].length ∧ z.length = [(1 : ℝ)].length ∧
      d.length = [(1 : ℝ)].length ∧ c.length = [(1 : ℝ)].length ∧
      ∀ j, j < [(1 : ℝ)].length →
        b.getD j 0 = (optimise (fun _ _ _ => v0) (fun _ _ _ => ([], [], []))
          fmEmpty st0 0 ([(1 : ℝ)].getD j 0) ([(2 : ℝ)].getD j 0) x0c).beta ∧
        z.getD j 0 = (optimise (fun _ _ _ => v0) (fun _ _ _ => ([], [], []))
          fmEmpty st0 0 ([(1 : ℝ)].getD j 0) ([(2 : ℝ)].getD j 0) x0c).zt ∧
        d.getD j 0 = (optimise (fun _ _ _ => v0) (fun _ _ _ => ([], [], []))
          fmEmpty st0 0 ([(1 : ℝ)].getD j 0) ([(2 : ℝ)].getD j 0) x0c).dz ∧
        c.getD j 0 = (optimise (fun _ _ _ => v0) (fun _ _ _ => ([], [], []))
          fmEmpty st0 0 ([(1 : ℝ)].getD j 0) ([(2 : ℝ)].getD j 0) x0c).C) ∧
    optimise_routine (fun _ _ _ => v0) (fun _ _ _ => ([], [], []))
        fmEmpty st0 0 [1] [] x0c =
      .error "xc_list and yc_list must be the same size" :=
  ⟨(C8_optimise_routine_shapes (fun _ _ _ => v0) (fun _ _ _ => ([], [], []))
      fmEmpty st0 0 [1] [2] x0c).2 rfl,
   (C8_optimise_routine_shapes (fun _ _ _ => v0) (fun _ _ _ => ([], [], []))
      fmEmpty st0 0 [1] [] x0c).1 (by decide)⟩

/-! ### Sensitivity analysis -/

/-- `loc + scale * z` entrywise: the value of `np.random.normal(loc,
scale)` expressed through standard-normal draws `z`. -/
def addScaled : List ℝ → List ℝ → List ℝ → List ℝ
  | l :: ls, s :: ss, z :: zs => (l + s * z) :: addScaled ls ss zs
  | _, _, _ => []

/-- `np.random.normal(loc, scale)`: raises `ValueError` when any scale
entry is negative, otherwise returns `loc + scale*z` for the supplied
standard-normal draws `z`. -/
noncomputable def np_random_normal (loc scale z : List ℝ) :
    Except String (List ℝ) :=
  if ∃ s ∈ scale, s < 0 then .error "scale < 0"
  else .ok (addScaled loc scale z)

/-- The parameters that currently have an active prior, in the
dictionary iteration order beta, zt, dz, C. -/
def use_keysOf (st : CState) : List Param :=
  [Param.beta, Param.zt, Param.dz, Param.C].filter
    fun p => (st.prior_pdf.get p).isSome

/-- The per-iteration prior mutation
`self.prior[key][0] = prior_pdf.rvs()` for each active key (for an
active key `self.prior[key]` is a nonempty list, so the element-0
assignment is a `List.set`). -/
def perturbPriors (st : CState) (draw : Param → ℝ)
    (use_keys : List Param) : CState :=
  use_keys.foldl
    (fun s p =>
      { s with prior :=
          s.prior.set p ((s.prior.get p).map fun l => l.set 0 (draw p)) })
    st

/-- The restore loop `self.prior[key] = list(prior_pdf.args)` over the
active keys. -/
def restorePriors (st : CState) (use_keys : List Param) : CState :=
  use_keys.foldl
    (fun s p => { s with prior := s.prior.set p (s.prior_pdf.get p) }) st

/-- The Monte-Carlo loop of `sensitivity`, counting down the remaining
iterations with `sim` the current index: resample each active prior's
location, perturb the observed spectrum (`np.random.normal(Phi,
sigma_Phi)`, which raises and aborts the call when a `sigma_Phi` entry
is negative), minimise, and record `res.x`. -/
noncomputable def sensitivityLoop (minimizeFn : MinimizeFn) (fm : FwdModel)
    (k Phi sigma_Phi : List ℝ) (x0 : Vec4) (use_keys : List Param)
    (rvs : ℕ → Param → ℝ) (dnoise : ℕ → List ℝ) :
    CState → List Vec4 → ℕ → ℕ → CState × Except String (List Vec4)
  | st, acc, _, 0 => (st, .ok acc.reverse)
  | st, acc, sim, n + 1 =>
    let st' := perturbPriors st (rvs sim) use_keys
    match np_random_normal Phi sigma_Phi (dnoise sim) with
    | .error e => (st', .error e)
    | .ok rPhi =>
      let res := minimizeFn
        (fun x => min_func fm st' x k rPhi sigma_Phi) x0 bounds
      sensitivityLoop minimizeFn fm k Phi sigma_Phi x0 use_keys rvs dnoise
        st' (res :: acc) (sim + 1) n

/-- `sensitivity(window, xc, yc, nsim, ...)`: runs the Monte-Carlo
loop; if an iteration raises, the exception propagates with the priors
left mutated (there is no try/finally); if all iterations complete, the
priors are restored and the source then executes
`return yc_list(samples.T)`, where `yc_list` is not defined in scope —
a `NameError` instead of the intended `list(samples.T)`. -/
noncomputable def sensitivity (minimizeFn : MinimizeFn)
    (spectrumAt : SpectrumFn) (fm : FwdModel) (st : CState)
    (window xc yc : ℝ) (nsim : ℕ) (x0 : Vec4) (rvs : ℕ → Param → ℝ)
    (dnoise : ℕ → List ℝ) :
    CState × Except String (List ℝ × List ℝ × List ℝ × List ℝ) :=
  match sensitivityLoop minimizeFn fm (spectrumAt window xc yc).1
      (spectrumAt window xc yc).2.1 (spectrumAt window xc yc).2.2 x0
      (use_keysOf st) rvs dnoise st [] 0 nsim with
  | (st', .error e) => (st', .error e)
  | (st', .ok _) =>
      (restorePriors st' (use_keysOf st),
       .error "NameError: name yc_list is not defined")

/-! ### Helper lemmas for the sensitivity claims -/

theorem sensitivityLoop_succ (minimizeFn : MinimizeFn) (fm : FwdModel)
    (k Phi sigma_Phi : List ℝ) (x0 : Vec4) (use_keys : List Param)
    (rvs : ℕ → Param → ℝ) (dnoise : ℕ → List ℝ) (st : CState)
    (acc : List Vec4) (sim n : ℕ) :
    sensitivityLoop minimizeFn fm k Phi sigma_Phi x0 use_keys rvs dnoise
        st acc sim (n + 1) =
      match np_random_normal Phi sigma_Phi (dnoise sim) with
      | .error e => (perturbPriors st (rvs sim) use_keys, .error e)
      | .ok rPhi =>
          sensitivityLoop minimizeFn fm k Phi sigma_Phi x0 use_keys rvs dnoise
            (perturbPriors st (rvs sim) use_keys)
            (minimizeFn
              (fun x => min_func fm (perturbPriors st (rvs sim) use_keys)
                x k rPhi sigma_Phi) x0 bounds :: acc)
            (sim + 1) n := rfl

theorem PMap.get_set_ne {α : Type} (m : PMap α) (p q : Param) (v : α)
    (h : q ≠ p) : (m.set p v).get q = m.get q := by
  cases p <;> cases q <;> first | rfl | exact absurd rfl h

theorem PMap.ext_get {α : Type} (m1 m2 : PMap α)
    (h : ∀ p, m1.get p = m2.get p) : m1 = m2 := by
  cases m1
  cases m2
  simp only [PMap.mk.injEq]
  exact ⟨h .beta, h .zt, h .dz, h .C⟩

theorem CState.eq_of_get (s1 s2 : CState)
    (hp : ∀ p, s1.prior.get p = s2.prior.get p)
    (hq : ∀ p, s1.prior_pdf.get p = s2.prior_pdf.get p) : s1 = s2 := by
  cases s1
  cases s2
  simp only [CState.mk.injEq]
  exact ⟨PMap.ext_get _ _ hp, PMap.ext_get _ _ hq⟩

theorem perturbPriors_pdf :
    ∀ (ks : List Param) (st : CState) (draw : Param → ℝ),
      (perturbPriors st draw ks).prior_pdf = st.prior_pdf := by
  intro ks
  induction ks with
  | nil => intro st draw; rfl
  | cons p ps ih =>
      intro st draw
      have hstep : perturbPriors st draw (p :: ps) =
          perturbPriors
            { st with prior :=
                st.prior.set p ((st.prior.get p).map fun l => l.set 0 (draw p)) }
            draw ps := rfl
      rw [hstep, ih]

theorem perturbPriors_get_not_mem :
    ∀ (ks : List Param) (st : CState) (draw : Param → ℝ) (q : Param),
      q ∉ ks → (perturbPriors st draw ks).prior.get q = st.prior.get q := by
  intro ks
  induction ks with
  | nil => intro st draw q _; rfl
  | cons p ps ih =>
      intro st draw q hq
      have hstep : perturbPriors st draw (p :: ps) =
          perturbPriors
            { st with prior :=
                st.prior.set p ((st.prior.get p).map fun l => l.set 0 (draw p)) }
            draw ps := rfl
      rw [hstep, ih _ _ q (fun hmem => hq (List.mem_cons_of_mem p hmem))]
      exact PMap.get_set_ne _ p q _ (fun he => hq (he ▸ List.mem_cons_self p ps))

theorem restorePriors_pdf :
    ∀ (ks : List Param) (st : CState),
      (restorePriors st ks).prior_pdf = st.prior_pdf := by
  intro ks
  induction ks with
  | nil => intro st; rfl
  | cons p ps ih =>
      intro st
      have hstep : restorePriors st (p :: ps) =
          restorePriors
            { st with prior := st.prior.set p (st.prior_pdf.get p) } ps := rfl
      rw [hstep, ih]

theorem restorePriors_get :
    ∀ (ks : List Param) (st : CState) (q : Param),
      (restorePriors st ks).prior.get q =
        if q ∈ ks then st.prior_pdf.get q else st.prior.get q := by
  intro ks
  induction ks with
  | nil => intro st q; simp [restorePriors]
  | cons p ps ih =>
      intro st q
      have hstep : restorePriors st (p :: ps) =
          restorePriors
            { st with prior := st.prior.set p (st.prior_pdf.get p) } ps := rfl
      rw [hstep, ih]
      by_cases hqp : q = p
      · subst hqp
        by_cases hmem : q ∈ ps <;>
          simp [hmem, PMap.get_set_self, List.mem_cons]
      · by_cases hmem : q ∈ ps
        · simp [hmem, List.mem_cons, hqp]
        · have : q ∉ p :: ps := by
            simp [List.mem_cons, hqp, hmem]
          simp [hmem, List.mem_cons, hqp, PMap.get_set_ne _ p q _ hqp]

theorem sensitivityLoop_ok (minimizeFn : MinimizeFn) (fm : FwdModel)
    (k Phi sigma_Phi : List ℝ) (x0 : Vec4) (use_keys : List Param)
    (rvs : ℕ → Param → ℝ) (dnoise : ℕ → List ℝ)
    (hsig : ¬ ∃ s ∈ sigma_Phi, s < 0) :
    ∀ (n : ℕ) (st : CState) (acc : List Vec4) (sim : ℕ),
      (sensitivityLoop minimizeFn fm k Phi sigma_Phi x0 use_keys rvs dnoise
          st acc sim n).1.prior_pdf = st.prior_pdf ∧
      (∀ q, q ∉ use_keys →
        (sensitivityLoop minimizeFn fm k Phi sigma_Phi x0 use_keys rvs dnoise
            st acc sim n).1.prior.get q = st.prior.get q) ∧
      ∃ l, (sensitivityLoop minimizeFn fm k Phi sigma_Phi x0 use_keys rvs
          dnoise st acc sim n).2 = .ok l := by
  intro n
  induction n with
  | zero => intro st acc sim; exact ⟨rfl, fun q _ => rfl, acc.reverse, rfl⟩
  | succ m ih =>
      intro st acc sim
      have hnp : np_random_normal Phi sigma_Phi (dnoise sim) =
          .ok (addScaled Phi sigma_Phi (dnoise sim)) := by
        unfold np_random_normal
        rw [if_neg hsig]
      have hstep : sensitivityLoop minimizeFn fm k Phi sigma_Phi x0 use_keys
          rvs dnoise st acc sim (m + 1) =
          sensitivityLoop minimizeFn fm k Phi sigma_Phi x0 use_keys rvs dnoise
            (perturbPriors st (rvs sim) use_keys)
            (minimizeFn
              (fun x => min_func fm (perturbPriors st (rvs sim) use_keys)
                x k (addScaled Phi sigma_Phi (dnoise sim)) sigma_Phi)
              x0 bounds :: acc)
            (sim + 1) m := by
        rw [sensitivityLoop_succ, hnp]
      rw [hstep]
      obtain ⟨h1, h2, l, h3⟩ := ih (perturbPriors st (rvs sim) use_keys)
        (minimizeFn
          (fun x => min_func fm (perturbPriors st (rvs sim) use_keys)
            x k (addScaled Phi sigma_Phi (dnoise sim)) sigma_Phi)
          x0 bounds :: acc) (sim + 1)
      refine ⟨?_, ?_, l, h3⟩
      · rw [h1, perturbPriors_pdf]
      · intro q hq
        rw [h2 q hq, perturbPriors_get_not_mem _ _ _ q hq]

/-- When no `sigma_Phi` entry is negative, every iteration of the
sensitivity loop completes, and the call reaches the final return —
which raises the `yc_list` NameError. -/
theorem sensitivity_raises (minimizeFn : MinimizeFn)
    (spectrumAt : SpectrumFn) (fm : FwdModel) (st : CState)
    (window xc yc : ℝ) (nsim : ℕ) (x0 : Vec4) (rvs : ℕ → Param → ℝ)
    (dnoise : ℕ → List ℝ)
    (hsig : ¬ ∃ s ∈ (spectrumAt window xc yc).2.2, s < 0) :
    (sensitivity minimizeFn spectrumAt fm st window xc yc nsim x0 rvs
        dnoise).2 = .error "NameError: name yc_list is not defined" := by
  obtain ⟨h1, h2, l, h3⟩ := sensitivityLoop_ok minimizeFn fm
    (spectrumAt window xc yc).1 (spectrumAt window xc yc).2.1
    (spectrumAt window xc yc).2.2 x0 (use_keysOf st) rvs dnoise hsig
    nsim st [] 0
  unfold sensitivity
  cases hres : sensitivityLoop minimizeFn fm (spectrumAt window xc yc).1
      (spectrumAt window xc yc).2.1 (spectrumAt window xc yc).2.2 x0
      (use_keysOf st) rvs dnoise st [] 0 nsim with
  | mk st' r =>
      rw [hres] at h3
      cases r with
      | error e => simp at h3
      | ok l2 => rfl

/-! ### Claims C2, C3 -/

/-- The constant external minimiser used in concrete scenarios. -/
def cMin : MinimizeFn := fun _ _ _ => v0

/-- The prior state after `add_prior(beta=(3.0, 0.1))`. -/
def stBeta : CState := (add_prior reset_priors [("beta", PriorSpec.tup 3 0.1)]).1

/-- A spectrum pipeline returning the empty spectrum. -/
def specZero : SpectrumFn := fun _ _ _ => ([], [], [])

/-- A spectrum pipeline whose uncertainty array contains a negative
entry, which makes `np.random.normal(Phi, sigma_Phi)` raise. -/
def specNeg : SpectrumFn := fun _ _ _ => ([1], [2], [-1])

/-- A prior-resampling stream drawing the constant 7. -/
def rvs7 : ℕ → Param → ℝ := fun _ _ => 7

/-- A standard-normal draw stream for the spectrum perturbation. -/
def dn0 : ℕ → List ℝ := fun _ => [0]

/-- C2: `sensitivity` never returns its ensemble: a call whose `nsim`
iterations all complete reaches `return yc_list(samples.T)` and raises
`NameError` (`yc_list` is undefined in its scope), instead of returning
the four per-parameter sequences promised by its docstring
(`list(samples.T)` as in `optimise_routine`). -/
theorem C2_sensitivity_yc_list_name_error :
    (sensitivity cMin specZero fmEmpty stBeta 0 0 0 1 x0c rvs7 dn0).2 =
      .error "NameError: name yc_list is not defined" :=
  sensitivity_raises cMin specZero fmEmpty stBeta 0 0 0 1 x0c rvs7 dn0
    (by simp [specZero])

/-- C3 (counterexample): when an iteration raises (here: the spectrum
perturbation `np.random.normal(Phi, sigma_Phi)` fails on a negative
uncertainty entry), `sensitivity` propagates the exception without
restoring the priors: the beta prior registered as `[3.0, 0.1]` is left
mutated to `[7.0, 0.1]` by the already-performed location resampling. -/
theorem C3_sensitivity_restore_counterexample :
    (sensitivity cMin specNeg fmEmpty stBeta 0 0 0 1 x0c rvs7 dn0).2 =
      .error "scale < 0" ∧
    (sensitivity cMin specNeg fmEmpty stBeta 0 0 0 1 x0c rvs7 dn0).1.prior.beta =
      some [7, 0.1] ∧
    stBeta.prior.beta = some [3, 0.1] ∧
    (sensitivity cMin specNeg fmEmpty stBeta 0 0 0 1 x0c rvs7 dn0).1.prior.beta ≠
      stBeta.prior.beta := by
  have hnp : np_random_normal (specNeg 0 0 0).2.1 (specNeg 0 0 0).2.2 (dn0 0) =
      .error "scale < 0" := by
    unfold np_random_normal
    rw [if_pos]
    exact ⟨-1, by simp [specNeg], by norm_num⟩
  have hloop : sensitivityLoop cMin fmEmpty (specNeg 0 0 0).1
      (specNeg 0 0 0).2.1 (specNeg 0 0 0).2.2 x0c (use_keysOf stBeta)
      rvs7 dn0 stBeta [] 0 1 =
      (perturbPriors stBeta (rvs7 0) (use_keysOf stBeta), .error "scale < 0") := by
    rw [show (1 : ℕ) = 0 + 1 from rfl, sensitivityLoop_succ, hnp]
  have hsens : sensitivity cMin specNeg fmEmpty stBeta 0 0 0 1 x0c rvs7 dn0 =
      (perturbPriors stBeta (rvs7 0) (use_keysOf stBeta), .error "scale < 0") := by
    unfold sensitivity
    rw [hloop]
  rw [hsens]
  refine ⟨rfl, rfl, rfl, ?_⟩
  intro h
  have : ([7, 0.1] : List ℝ) = [3, 0.1] := by
    have h2 : (some [7, 0.1] : Option (List ℝ)) = some [3, 0.1] := h
    exact Option.some.inj h2
  simp only [List.cons.injEq] at this
  norm_num at this

/-- C3 (amended): when every iteration completes (no exception is
raised mid-loop), the restore loop runs before the final (raising)
return and every prior's stored arguments are bit-identical to their
pre-call values; if an iteration raises, the priors are left mutated
(see the counterexample). -/
theorem C3_sensitivity_restore_amended (minimizeFn : MinimizeFn)
    (spectrumAt : SpectrumFn) (fm : FwdModel) (st : CState)
    (window xc yc : ℝ) (nsim : ℕ) (x0 : Vec4) (rvs : ℕ → Param → ℝ)
    (dnoise : ℕ → List ℝ)
    (hcons : ∀ p : Param, st.prior.get p = st.prior_pdf.get p)
    (hsig : ¬ ∃ s ∈ (spectrumAt window xc yc).2.2, s < 0) :
    (sensitivity minimizeFn spectrumAt fm st window xc yc nsim x0 rvs
        dnoise).1 = st := by
  obtain ⟨h1, h2, l, h3⟩ := sensitivityLoop_ok minimizeFn fm
    (spectrumAt window xc yc).1 (spectrumAt window xc yc).2.1
    (spectrumAt window xc yc).2.2 x0 (use_keysOf st) rvs dnoise hsig
    nsim st [] 0
  unfold sensitivity
  cases hres : sensitivityLoop minimizeFn fm (spectrumAt window xc yc).1
      (spectrumAt window xc yc).2.1 (spectrumAt window xc yc).2.2 x0
      (use_keysOf st) rvs dnoise st [] 0 nsim with
  | mk st' r =>
      rw [hres] at h1 h2 h3
      cases r with
      | error e => simp at h3
      | ok l2 =>
          refine CState.eq_of_get _ _ ?_ ?_
          · intro q
            rw [restorePriors_get]
            by_cases hmem : q ∈ use_keysOf st
            · rw [if_pos hmem, h1, ← hcons q]
            · rw [if_neg hmem, h2 q hmem]
          · intro q
            rw [restorePriors_pdf, h1]

/-- Witness for C3 (amended): with `add_prior(beta=(3.0, 0.1))`, an
empty spectrum and one completing iteration, the prior state after the
call equals the pre-call state. -/
theorem C3_sensitivity_restore_amended_witness :
    (sensitivity cMin specZero fmEmpty stBeta 0 0 0 1 x0c rvs7 dn0).1 = stBeta :=
  C3_sensitivity_restore_amended cMin specZero fmEmpty stBeta 0 0 0 1 x0c
    rvs7 dn0 (by intro p; cases p <;> rfl) (by simp [specZero])

end PyCurious
